import Mathlib

/-!
Shallow embedding of the lc3-vm-rust emulator (src/vm/mod.rs and its
submodules) together with theorems checking the natural-language
specification against it.

Conventions of the embedding:
* 16-bit machine words are `Nat` values; an operation that the Rust source
  performs with `wrapping_add` is written `(a + b) % 65536`.
* An arithmetic operation the Rust source performs with a plain `+` / `+=`
  on `u16` is modelled as checked addition returning `Option Nat`, `none`
  standing for the arithmetic-overflow panic raised when overflow checks
  are enabled (the default `cargo run` dev profile).  The same convention
  models `<<` with a shift amount of 16 or more, `.unwrap()` on an error
  value, and `read_exact` failing at end of input: each panic is `none`.
* Arrays (`memory: [u16; 65536]`, the register file) are total functions
  `Nat → Nat` updated pointwise; stdin is a list of pending bytes and
  stdout a list of emitted bytes carried inside the machine state.
-/

namespace LC3

/-- Pointwise function update, modelling an array store `a[i] = v`. -/
def updFn (f : Nat → Nat) (i v : Nat) : Nat → Nat :=
  fun j => if j = i then v else f j

/-- Memory size from src/vm/mod.rs: `const MEMORY_SIZE: usize = 65536`. -/
def MEMORY_SIZE : Nat := 65536

/-- Initial program counter from src/vm/mod.rs: `const PC_START: u16 = 0x3000`. -/
def PC_START : Nat := 0x3000

/-- Length of the register array in the `VM` struct: `registers: [u16; 10]`. -/
def REGISTER_COUNT : Nat := 10

/-- Register enumeration from src/vm/registers.rs. -/
inductive Register where
  | R0 | R1 | R2 | R3 | R4 | R5 | R6 | R7
  | PC
  | Cond
  | Count
  deriving DecidableEq

/-- Conversion `impl From<Register> for usize` from src/vm/registers.rs. -/
def Register.toIndex : Register → Nat
  | .R0 => 0
  | .R1 => 1
  | .R2 => 2
  | .R3 => 3
  | .R4 => 4
  | .R5 => 5
  | .R6 => 6
  | .R7 => 7
  | .PC => 8
  | .Cond => 9
  | .Count => 10

/-- Condition flags from src/vm/condition_flags.rs. -/
inductive ConditionFlag where
  | Pos | Zro | Neg
  deriving DecidableEq

/-- Conversion `impl From<ConditionFlag> for u16`: the discriminants
`Pos = 1 << 0`, `Zro = 1 << 1`, `Neg = 1 << 2`. -/
def ConditionFlag.toU16 : ConditionFlag → Nat
  | .Pos => 1
  | .Zro => 2
  | .Neg => 4

/-- Opcode enumeration from src/vm/opcodes.rs. -/
inductive OpCode where
  | Br | Add | Ld | St | Jsr | And | Ldr | Str
  | Rti | Not | Ldi | Sti | Jmp | Res | Lea | Trap
  deriving DecidableEq

/-- Decoding `OpCode::from_u16` from src/vm/opcodes.rs. -/
def OpCode.from_u16 : Nat → Option OpCode
  | 0 => some .Br
  | 1 => some .Add
  | 2 => some .Ld
  | 3 => some .St
  | 4 => some .Jsr
  | 5 => some .And
  | 6 => some .Ldr
  | 7 => some .Str
  | 8 => some .Rti
  | 9 => some .Not
  | 10 => some .Ldi
  | 11 => some .Sti
  | 12 => some .Jmp
  | 13 => some .Res
  | 14 => some .Lea
  | 15 => some .Trap
  | _ => none

/-- Trap codes from src/vm/trap_codes.rs. -/
inductive TrapCode where
  | Getc | Out | Puts | TrapIn | Putsp | Halt
  deriving DecidableEq

/-- Conversion `impl TryFrom<u16> for TrapCode`, mapping the six trap vectors
and rejecting every other value. -/
def TrapCode.tryFrom : Nat → Option TrapCode
  | 0x20 => some .Getc
  | 0x21 => some .Out
  | 0x22 => some .Puts
  | 0x23 => some .TrapIn
  | 0x24 => some .Putsp
  | 0x25 => some .Halt
  | _ => none

/-- Keyboard status register address, `MemoryMappedRegister::Kbsr = 0xFE00`. -/
def KBSR : Nat := 0xFE00

/-- Keyboard data register address, `MemoryMappedRegister::Kbddr = 0xFE02`. -/
def KBDDR : Nat := 0xFE02

/-- Checked 16-bit addition, modelling `+` / `+=` on `u16`, which panics on
overflow when overflow checks are enabled; the panic is `none`. -/
def checkedAddU16 (a b : Nat) : Option Nat :=
  if a + b < 65536 then some (a + b) else none

/-- Translation of `VM::sign_extend` from src/vm/mod.rs:
if bit `bit_count - 1` of `x` is set, the result is
`x | (0xFFFF << bit_count)`, else `x` unchanged.  On `u16`,
`bit_count - 1` underflows for `bit_count = 0` and `0xFFFF << bit_count`
is a shift overflow for `bit_count ≥ 16`; both panics are `none`.
Bits shifted out of a `u16` are dropped, hence the `% 65536` on the mask. -/
def sign_extend (x bit_count : Nat) : Option Nat :=
  match bit_count with
  | 0 => none
  | k + 1 =>
    if (x >>> k) &&& 1 = 1 then
      if bit_count < 16 then some (x ||| ((0xFFFF <<< bit_count) % 65536))
      else none
    else some x

/-- Total version of `VM::sign_extend`, meaningful for `1 ≤ bit_count ≤ 15`,
the range containing every call the emulator makes (5, 6, 9 and 11 bits). -/
def sext (x bit_count : Nat) : Nat :=
  if (x >>> (bit_count - 1)) &&& 1 = 1 then x ||| ((0xFFFF <<< bit_count) % 65536)
  else x

/-- Machine state, mirroring `struct VM { memory, registers, running }` from
src/vm/mod.rs.  The `stdin` byte stream consumed by `getchar` /
`read_exact` and the `stdout` bytes emitted by `print!` are carried
explicitly so that the I/O side effects of the handlers are observable. -/
structure VM where
  memory : Nat → Nat
  registers : Nat → Nat
  running : Bool
  input : List Nat
  output : List Nat

/-- Constructor `VM::new`: zero-filled memory and registers, condition flag
set to `Zro`, PC set to `PC_START`, running.  The pending stdin bytes are a
parameter because they belong to the process environment, not the struct. -/
def VM.new (stdin : List Nat) : VM :=
  { memory := fun _ => 0
    registers :=
      updFn (updFn (fun _ => 0) (Register.toIndex .Cond) (ConditionFlag.toU16 .Zro))
        (Register.toIndex .PC) PC_START
    running := true
    input := stdin
    output := [] }

/-- Store to a register slot, `self.registers[i] = v`. -/
def VM.setReg (vm : VM) (i v : Nat) : VM :=
  { vm with registers := updFn vm.registers i v }

/-- Result of `get_char()` (libc `getchar`) widened by `as u16`: the next
pending byte, or 65535 (`-1 as c_int` truncated to `u16`) at end of input. -/
def getCharU16 (input : List Nat) : Nat × List Nat :=
  match input with
  | [] => (65535, [])
  | c :: rest => (c, rest)

/-- Translation of `VM::mem_read`: a load from `KBSR` first polls stdin with
`read_exact` (panicking at end of input, modelled `none`), refreshing the
status word (and, when a nonzero byte arrived, also the data word with the
next `get_char()` byte); every load returns the word now stored at
`address`.  Loads from any other address are plain array reads. -/
def VM.mem_read (vm : VM) (address : Nat) : Option (Nat × VM) :=
  if address = KBSR then
    match vm.input with
    | [] => none
    | b :: rest =>
      if b ≠ 0 then
        let c := (getCharU16 rest).1
        let vm' := { vm with memory := updFn (updFn vm.memory KBSR 32768) KBDDR c
                             input := (getCharU16 rest).2 }
        some (vm'.memory address, vm')
      else
        let vm' := { vm with memory := updFn vm.memory KBSR 0, input := rest }
        some (vm'.memory address, vm')
  else some (vm.memory address, vm)

/-- Translation of `VM::mem_write`: an unconditional store. -/
def VM.mem_write (vm : VM) (address value : Nat) : VM :=
  { vm with memory := updFn vm.memory address value }

/-- Translation of `VM::update_flags`. -/
def VM.update_flags (vm : VM) (reg_index : Nat) : VM :=
  if vm.registers reg_index = 0 then
    vm.setReg (Register.toIndex .Cond) (ConditionFlag.toU16 .Zro)
  else if vm.registers reg_index >>> 15 = 1 then
    vm.setReg (Register.toIndex .Cond) (ConditionFlag.toU16 .Neg)
  else
    vm.setReg (Register.toIndex .Cond) (ConditionFlag.toU16 .Pos)

/-- Translation of `VM::add` (`wrapping_add` is `% 65536`). -/
def VM.add (vm : VM) (instr : Nat) : Option VM :=
  let dr := (instr >>> 9) &&& 0x7
  let sr1 := (instr >>> 6) &&& 0x7
  let imm_flag := (instr >>> 5) &&& 0x1
  if imm_flag ≠ 0 then
    match sign_extend (instr &&& 0x1F) 5 with
    | none => none
    | some imm5 =>
      some ((vm.setReg dr ((vm.registers sr1 + imm5) % 65536)).update_flags dr)
  else
    let sr2 := instr &&& 0x7
    some ((vm.setReg dr ((vm.registers sr1 + vm.registers sr2) % 65536)).update_flags dr)

/-- Translation of `VM::and`; note the source does not call `update_flags`. -/
def VM.and (vm : VM) (instr : Nat) : Option VM :=
  let dr := (instr >>> 9) &&& 0x7
  let sr1 := (instr >>> 6) &&& 0x7
  let imm_flag := (instr >>> 5) &&& 0x1
  if imm_flag ≠ 0 then
    match sign_extend (instr &&& 0x1F) 5 with
    | none => none
    | some imm5 => some (vm.setReg dr (vm.registers sr1 &&& imm5))
  else
    let sr2 := instr &&& 0x7
    some (vm.setReg dr (vm.registers sr1 &&& vm.registers sr2))

/-- Translation of `VM::ldi`: both loads go through `mem_read`. -/
def VM.ldi (vm : VM) (instr : Nat) : Option VM :=
  let dr := (instr >>> 9) &&& 0x7
  match sign_extend (instr &&& 0x1FF) 9 with
  | none => none
  | some pc_offset =>
    let address := (vm.registers (Register.toIndex .PC) + pc_offset) % 65536
    match vm.mem_read address with
    | none => none
    | some (effective_address, vm1) =>
      match vm1.mem_read effective_address with
      | none => none
      | some (v, vm2) => some ((vm2.setReg dr v).update_flags dr)

/-- Translation of `VM::not` (`!` on a `u16` is complement within 16 bits). -/
def VM.not (vm : VM) (instr : Nat) : Option VM :=
  let dr := (instr >>> 9) &&& 0x7
  let sr := (instr >>> 6) &&& 0x7
  some ((vm.setReg dr (vm.registers sr ^^^ 0xFFFF)).update_flags dr)

/-- Translation of `VM::br`. -/
def VM.br (vm : VM) (instr : Nat) : Option VM :=
  let n := (instr >>> 11) &&& 0x1
  let z := (instr >>> 10) &&& 0x1
  let p := (instr >>> 9) &&& 0x1
  let cond := vm.registers (Register.toIndex .Cond)
  if (n ≠ 0 ∧ cond = ConditionFlag.toU16 .Neg)
      ∨ (z ≠ 0 ∧ cond = ConditionFlag.toU16 .Zro)
      ∨ (p ≠ 0 ∧ cond = ConditionFlag.toU16 .Pos) then
    match sign_extend (instr &&& 0x1FF) 9 with
    | none => none
    | some pc_offset =>
      some (vm.setReg (Register.toIndex .PC)
        ((vm.registers (Register.toIndex .PC) + pc_offset) % 65536))
  else some vm

/-- Translation of `VM::jmp`. -/
def VM.jmp (vm : VM) (instr : Nat) : Option VM :=
  let base_r := (instr >>> 6) &&& 0x7
  some (vm.setReg (Register.toIndex .PC) (vm.registers base_r))

/-- Translation of `VM::jsr`. -/
def VM.jsr (vm : VM) (instr : Nat) : Option VM :=
  let vm1 := vm.setReg (Register.toIndex .R7) (vm.registers (Register.toIndex .PC))
  let long_flag := (instr >>> 11) &&& 0x1
  if long_flag ≠ 0 then
    match sign_extend (instr &&& 0x7FF) 11 with
    | none => none
    | some long_pc_offset =>
      some (vm1.setReg (Register.toIndex .PC)
        ((vm1.registers (Register.toIndex .PC) + long_pc_offset) % 65536))
  else
    let base_r := (instr >>> 6) &&& 0x7
    some (vm1.setReg (Register.toIndex .PC) (vm1.registers base_r))

/-- Translation of `VM::ld`: the source indexes `self.memory` directly,
without going through `mem_read`. -/
def VM.ld (vm : VM) (instr : Nat) : Option VM :=
  let dr := (instr >>> 9) &&& 0x7
  match sign_extend (instr &&& 0x1FF) 9 with
  | none => none
  | some pc_offset =>
    let address := (vm.registers (Register.toIndex .PC) + pc_offset) % 65536
    some ((vm.setReg dr (vm.memory address)).update_flags dr)

/-- Translation of `VM::ldr`: like `ld`, a direct `self.memory` read. -/
def VM.ldr (vm : VM) (instr : Nat) : Option VM :=
  let dr := (instr >>> 9) &&& 0x7
  let base_r := (instr >>> 6) &&& 0x7
  match sign_extend (instr &&& 0x3F) 6 with
  | none => none
  | some offset =>
    let address := (vm.registers base_r + offset) % 65536
    some ((vm.setReg dr (vm.memory address)).update_flags dr)

/-- Translation of `VM::lea`. -/
def VM.lea (vm : VM) (instr : Nat) : Option VM :=
  let dr := (instr >>> 9) &&& 0x7
  match sign_extend (instr &&& 0x1FF) 9 with
  | none => none
  | some pc_offset =>
    let address := (vm.registers (Register.toIndex .PC) + pc_offset) % 65536
    some ((vm.setReg dr address).update_flags dr)

/-- Translation of `VM::st`. -/
def VM.st (vm : VM) (instr : Nat) : Option VM :=
  let sr := (instr >>> 9) &&& 0x7
  match sign_extend (instr &&& 0x1FF) 9 with
  | none => none
  | some pc_offset =>
    let address := (vm.registers (Register.toIndex .PC) + pc_offset) % 65536
    some { vm with memory := updFn vm.memory address (vm.registers sr) }

/-- Translation of `VM::sti`. -/
def VM.sti (vm : VM) (instr : Nat) : Option VM :=
  let sr := (instr >>> 9) &&& 0x7
  match sign_extend (instr &&& 0x1FF) 9 with
  | none => none
  | some pc_offset =>
    let address := (vm.registers (Register.toIndex .PC) + pc_offset) % 65536
    let effective_address := vm.memory address
    some { vm with memory := updFn vm.memory effective_address (vm.registers sr) }

/-- Translation of `VM::str`. -/
def VM.str (vm : VM) (instr : Nat) : Option VM :=
  let sr := (instr >>> 9) &&& 0x7
  let base_r := (instr >>> 6) &&& 0x7
  match sign_extend (instr &&& 0x3F) 6 with
  | none => none
  | some offset =>
    let address := (vm.registers base_r + offset) % 65536
    some { vm with memory := updFn vm.memory address (vm.registers sr) }

/-- Diagnostic printed by `VM::abort`: two `println!` lines. -/
def abortMessage : List Nat :=
  ("Bad Opcode!\nAborting the VM...\n").data.map Char.toNat

/-- Shutdown notice printed by `VM::trap_halt`. -/
def haltMessage : List Nat :=
  ("Halting the VM...\n").data.map Char.toNat

/-- Prompt printed by `VM::trap_in`. -/
def promptMessage : List Nat :=
  ("Enter a character: ").data.map Char.toNat

/-- Translation of `VM::abort`: print the diagnostic, stop the loop. -/
def VM.abort (vm : VM) : VM :=
  { vm with output := vm.output ++ abortMessage, running := false }

/-- Translation of `VM::trap_getc`: `R0 = get_char() as u16`, then flags. -/
def VM.trap_getc (vm : VM) : VM :=
  let c := (getCharU16 vm.input).1
  let vm1 := { vm with input := (getCharU16 vm.input).2 }
  (vm1.setReg (Register.toIndex .R0) c).update_flags (Register.toIndex .R0)

/-- Translation of `VM::trap_out`: print the low byte of `R0` (`as u8`). -/
def VM.trap_out (vm : VM) : VM :=
  { vm with output := vm.output ++ [vm.registers (Register.toIndex .R0) % 256] }

/-- Loop body of `VM::trap_puts`: starting at `a`, print the low byte of
each word until a zero word.  The `fuel` argument only bounds the
recursion; it never runs out before the `a + 1 < 65536` guard, which
models the checked `address += 1` (panic at `address = 0xFFFF`). -/
def putsGo (mem : Nat → Nat) : Nat → Nat → Option (List Nat)
  | 0, _ => none
  | fuel + 1, a =>
    if mem a = 0 then some []
    else if a + 1 < 65536 then
      (putsGo mem fuel (a + 1)).map (fun r => mem a % 256 :: r)
    else none

/-- Output of the `VM::trap_puts` string walk starting at `address`. -/
def putsFrom (mem : Nat → Nat) (address : Nat) : Option (List Nat) :=
  putsGo mem (65536 - address) address

/-- Translation of `VM::trap_puts`. -/
def VM.trap_puts (vm : VM) : Option VM :=
  (putsFrom vm.memory (vm.registers (Register.toIndex .R0))).map
    (fun out => { vm with output := vm.output ++ out })

/-- Translation of `VM::trap_in`: prompt, then read a character like GETC. -/
def VM.trap_in (vm : VM) : VM :=
  let vm0 := { vm with output := vm.output ++ promptMessage }
  let c := (getCharU16 vm0.input).1
  let vm1 := { vm0 with input := (getCharU16 vm0.input).2 }
  (vm1.setReg (Register.toIndex .R0) c).update_flags (Register.toIndex .R0)

/-- Loop body of `VM::trap_puts_p`: for each word until a zero word, print
the low byte (`c & 0xFF`), then the high byte (`c >> 8`) only when it is
nonzero.  As in `putsGo`, the `a + 1 < 65536` guard models the checked
`address += 1`. -/
def putspGo (mem : Nat → Nat) : Nat → Nat → Option (List Nat)
  | 0, _ => none
  | fuel + 1, a =>
    if mem a = 0 then some []
    else if a + 1 < 65536 then
      (putspGo mem fuel (a + 1)).map (fun r =>
        let c := mem a
        let c1 := c % 256
        let c2 := (c >>> 8) % 256
        c1 :: (if c2 ≠ 0 then c2 :: r else r))
    else none

/-- Output of the `VM::trap_puts_p` string walk starting at `address`. -/
def putspFrom (mem : Nat → Nat) (address : Nat) : Option (List Nat) :=
  putspGo mem (65536 - address) address

/-- Translation of `VM::trap_puts_p`. -/
def VM.trap_puts_p (vm : VM) : Option VM :=
  (putspFrom vm.memory (vm.registers (Register.toIndex .R0))).map
    (fun out => { vm with output := vm.output ++ out })

/-- Translation of `VM::trap_halt`. -/
def VM.trap_halt (vm : VM) : VM :=
  { vm with output := vm.output ++ haltMessage, running := false }

/-- Translation of `VM::trap`: the vector is the low byte of the
instruction; `trap_vect.try_into().unwrap()` panics (`none`) on any value
outside the six trap codes, after the terminal was switched to raw mode
and before `restore_terminal_settings` runs (the restore is skipped). -/
def VM.trap (vm : VM) (instr : Nat) : Option VM :=
  let trap_vect := instr &&& 0xFF
  match TrapCode.tryFrom trap_vect with
  | none => none
  | some .Getc => some vm.trap_getc
  | some .Out => some vm.trap_out
  | some .Puts => vm.trap_puts
  | some .TrapIn => some vm.trap_in
  | some .Putsp => vm.trap_puts_p
  | some .Halt => some vm.trap_halt

/-- Translation of `VM::execute`. -/
def VM.execute (vm : VM) (op : OpCode) (instr : Nat) : Option VM :=
  match op with
  | .Add => vm.add instr
  | .And => vm.and instr
  | .Not => vm.not instr
  | .Br => vm.br instr
  | .Jmp => vm.jmp instr
  | .Jsr => vm.jsr instr
  | .Ld => vm.ld instr
  | .Ldi => vm.ldi instr
  | .Ldr => vm.ldr instr
  | .Lea => vm.lea instr
  | .St => vm.st instr
  | .Sti => vm.sti instr
  | .Str => vm.str instr
  | .Trap => vm.trap instr
  | .Rti => some vm.abort
  | .Res => some vm.abort

/-- Translation of `VM::fetch`: a `mem_read` at the current PC. -/
def VM.fetch (vm : VM) : Option (Nat × VM) :=
  vm.mem_read (vm.registers (Register.toIndex .PC))

/-- One iteration of the `VM::run` loop: guarded by `running`, it fetches,
increments the PC with the checked `+= 1`, decodes
(`OpCode::try_from(instr >> 12).unwrap()`, `none` on failure) and
executes.  A `none` is either the loop not running or a panic inside the
iteration. -/
def VM.step (vm : VM) : Option VM :=
  if vm.running then
    match vm.fetch with
    | none => none
    | some (instr, vm1) =>
      match checkedAddU16 (vm1.registers (Register.toIndex .PC)) 1 with
      | none => none
      | some pc' =>
        let vm2 := vm1.setReg (Register.toIndex .PC) pc'
        match OpCode.from_u16 (instr >>> 12) with
        | none => none
        | some op => vm2.execute op instr
  else none

/-- States reachable from the initial state by executing instructions. -/
inductive Reachable : VM → Prop where
  | init (stdin : List Nat) : Reachable (VM.new stdin)
  | step {vm vm' : VM} : Reachable vm → vm.step = some vm' → Reachable vm'

/-- Loop of `VM::read_image_file`: write `n` big-endian words taken from
the byte buffer `buf` to consecutive addresses starting at `origin`. -/
def loadLoop (mem : Nat → Nat) (origin : Nat) (buf : List Nat) : Nat → (Nat → Nat)
  | 0 => mem
  | n + 1 =>
    updFn (loadLoop mem origin buf n) (origin + n)
      (buf.getD (2 * n) 0 * 256 + buf.getD (2 * n + 1) 0)

/-- Translation of `VM::read_image_file` over the file's byte stream: the
first two bytes are the big-endian origin (`read_exact` panics, `none`,
when fewer than two bytes exist); `file.read` then fills a buffer of
`(MEMORY_SIZE - origin) * 2` bytes, and each big-endian pair is written
from `origin` on. -/
def VM.read_image_file (vm : VM) (bytes : List Nat) : Option VM :=
  match bytes with
  | b0 :: b1 :: rest =>
    let origin := b0 * 256 + b1
    let max_read := MEMORY_SIZE - origin
    let bytes_read := min rest.length (max_read * 2)
    some { vm with memory := loadLoop vm.memory origin rest (bytes_read / 2) }
  | _ => none

/-- Big-endian byte encoding of a 16-bit word, as the image format uses. -/
def toBE (w : Nat) : List Nat := [w / 256 % 256, w % 256]

/-- Byte stream encoding a list of 16-bit payload words big-endian. -/
def wordsToBytes : List Nat → List Nat
  | [] => []
  | w :: ws => toBE w ++ wordsToBytes ws

/-- Condition-flag value that `update_flags` derives from a result word. -/
def flagOf (v : Nat) : Nat :=
  if v = 0 then ConditionFlag.toU16 .Zro
  else if v >>> 15 = 1 then ConditionFlag.toU16 .Neg
  else ConditionFlag.toU16 .Pos

/-- The COND slot holds one of the three legal flag bit patterns. -/
def condValid (vm : VM) : Prop :=
  vm.registers (Register.toIndex .Cond) = 1 ∨
    vm.registers (Register.toIndex .Cond) = 2 ∨
    vm.registers (Register.toIndex .Cond) = 4

/-- Bytes PUTSP emits for one nonzero word: the low byte, then the high
byte when the high byte is nonzero. -/
def renderWord (w : Nat) : List Nat :=
  (w % 256) :: (if (w >>> 8) % 256 ≠ 0 then [(w >>> 8) % 256] else [])

/-- Running state whose PC sits at the top of the address space. -/
def vmPCMax : VM :=
  { memory := fun _ => 0
    registers := updFn (fun _ => 0) (Register.toIndex .PC) 0xFFFF
    running := true
    input := []
    output := [] }

/-- State about to execute `LD R0, #0` with `PC = 0xFE00` (so the effective
address is the keyboard status register) and a pending input byte. -/
def vmLdAtKbsr : VM :=
  { memory := fun _ => 0
    registers := updFn (fun _ => 0) (Register.toIndex .PC) 0xFE00
    running := true
    input := [1, 65]
    output := [] }

/-- Packed string whose first word has a zero low byte and a nonzero high
byte, followed by a zero word. -/
def memPacked : Nat → Nat := fun a => if a = 0x3000 then 0x4100 else 0

/-- Expected PUTSP output for the `n` words stored from `a` on: each word
contributes its low byte and then, when nonzero, its high byte. -/
def putspExpected (mem : Nat → Nat) : Nat → Nat → List Nat
  | _, 0 => []
  | a, m + 1 => renderWord (mem a) ++ putspExpected mem (a + 1) m

/-! Helper lemmas shared by the claim theorems. -/

theorem updFn_self (f : Nat → Nat) (i v : Nat) : updFn f i v i = v := by
  simp [updFn]

theorem updFn_ne (f : Nat → Nat) {i j : Nat} (v : Nat) (h : j ≠ i) :
    updFn f i v j = f j := by
  simp [updFn, h]

theorem sign_extend_eq_sext (x k : Nat) (h1 : 1 ≤ k) (h2 : k ≤ 15) :
    sign_extend x k = some (sext x k) := by
  match k, h1 with
  | m + 1, _ =>
    unfold sign_extend sext
    simp only [Nat.add_sub_cancel]
    split
    · rw [if_pos (by omega)]
    · rfl

theorem sign_extend_five (x : Nat) : sign_extend x 5 = some (sext x 5) :=
  sign_extend_eq_sext x 5 (by omega) (by omega)

theorem sign_extend_six (x : Nat) : sign_extend x 6 = some (sext x 6) :=
  sign_extend_eq_sext x 6 (by omega) (by omega)

theorem sign_extend_nine (x : Nat) : sign_extend x 9 = some (sext x 9) :=
  sign_extend_eq_sext x 9 (by omega) (by omega)

theorem sign_extend_eleven (x : Nat) : sign_extend x 11 = some (sext x 11) :=
  sign_extend_eq_sext x 11 (by omega) (by omega)

theorem sext_idem (x k : Nat) : sext (sext x k) k = sext x k := by
  unfold sext
  by_cases h : (x >>> (k - 1)) &&& 1 = 1
  · simp only [h, if_true]
    split
    · rw [Nat.or_assoc, Nat.or_self]
    · rfl
  · rw [if_neg h, if_neg h]

theorem VM.setReg_memory (vm : VM) (i v : Nat) : (vm.setReg i v).memory = vm.memory := rfl

theorem VM.setReg_input (vm : VM) (i v : Nat) : (vm.setReg i v).input = vm.input := rfl

theorem VM.setReg_output (vm : VM) (i v : Nat) : (vm.setReg i v).output = vm.output := rfl

theorem VM.setReg_running (vm : VM) (i v : Nat) : (vm.setReg i v).running = vm.running := rfl

theorem VM.setReg_reg_self (vm : VM) (i v : Nat) : (vm.setReg i v).registers i = v :=
  updFn_self _ _ _

theorem VM.setReg_reg_ne (vm : VM) {i j : Nat} (v : Nat) (h : j ≠ i) :
    (vm.setReg i v).registers j = vm.registers j :=
  updFn_ne _ _ h

theorem VM.update_flags_memory (vm : VM) (i : Nat) :
    (vm.update_flags i).memory = vm.memory := by
  unfold VM.update_flags
  split <;> try split
  all_goals rfl

theorem VM.update_flags_input (vm : VM) (i : Nat) :
    (vm.update_flags i).input = vm.input := by
  unfold VM.update_flags
  split <;> try split
  all_goals rfl

theorem VM.update_flags_output (vm : VM) (i : Nat) :
    (vm.update_flags i).output = vm.output := by
  unfold VM.update_flags
  split <;> try split
  all_goals rfl

theorem VM.update_flags_running (vm : VM) (i : Nat) :
    (vm.update_flags i).running = vm.running := by
  unfold VM.update_flags
  split <;> try split
  all_goals rfl

theorem VM.update_flags_reg_ne (vm : VM) (i : Nat) {j : Nat}
    (h : j ≠ Register.toIndex .Cond) :
    (vm.update_flags i).registers j = vm.registers j := by
  unfold VM.update_flags
  split <;> try split
  all_goals exact vm.setReg_reg_ne _ h

theorem VM.update_flags_cond (vm : VM) (i : Nat) :
    (vm.update_flags i).registers (Register.toIndex .Cond) = flagOf (vm.registers i) := by
  unfold VM.update_flags flagOf
  split <;> try split
  all_goals simp [VM.setReg_reg_self, ConditionFlag.toU16, *]

theorem condValid_update_flags (vm : VM) (i : Nat) : condValid (vm.update_flags i) := by
  unfold condValid
  rw [vm.update_flags_cond i]
  unfold flagOf
  split <;> try split
  all_goals simp [ConditionFlag.toU16]

theorem condValid_setReg (vm : VM) {i : Nat} (v : Nat)
    (h : i ≠ Register.toIndex .Cond) (hv : condValid vm) : condValid (vm.setReg i v) := by
  unfold condValid at hv ⊢
  rw [vm.setReg_reg_ne v (Ne.symm h)]
  exact hv

theorem VM.mem_read_other (vm : VM) {address : Nat} (h : address ≠ KBSR) :
    vm.mem_read address = some (vm.memory address, vm) := by
  unfold VM.mem_read
  rw [if_neg h]

theorem wordsToBytes_length (ws : List Nat) :
    (wordsToBytes ws).length = 2 * ws.length := by
  induction ws with
  | nil => rfl
  | cons w t ih => simp [wordsToBytes, toBE, ih]; omega

theorem wordsToBytes_getD (ws : List Nat) :
    ∀ i, i < ws.length →
      (wordsToBytes ws).getD (2 * i) 0 = ws.getD i 0 / 256 % 256 ∧
        (wordsToBytes ws).getD (2 * i + 1) 0 = ws.getD i 0 % 256 := by
  induction ws with
  | nil => intro i hi; exact absurd hi (by simp)
  | cons w t ih =>
    intro i hi
    match i with
    | 0 => exact ⟨rfl, rfl⟩
    | j + 1 =>
      have hj : j < t.length := by simpa using hi
      have e1 : 2 * (j + 1) = (2 * j) + 1 + 1 := by omega
      rw [e1]
      simpa [wordsToBytes, toBE] using ih j hj

theorem loadLoop_at (mem : Nat → Nat) (o : Nat) (buf : List Nat) :
    ∀ n i, i < n →
      loadLoop mem o buf n (o + i) =
        buf.getD (2 * i) 0 * 256 + buf.getD (2 * i + 1) 0 := by
  intro n
  induction n with
  | zero => intro i hi; exact absurd hi (by omega)
  | succ m ih =>
    intro i hi
    unfold loadLoop
    by_cases he : i = m
    · subst he
      exact updFn_self _ _ _
    · rw [updFn_ne _ _ (by omega)]
      exact ih i (by omega)

theorem loadLoop_out (mem : Nat → Nat) (o : Nat) (buf : List Nat) :
    ∀ n a, (∀ i, i < n → a ≠ o + i) → loadLoop mem o buf n a = mem a := by
  intro n
  induction n with
  | zero => intro a _; rfl
  | succ m ih =>
    intro a h
    unfold loadLoop
    rw [updFn_ne _ _ (h m (by omega))]
    exact ih a (fun i hi => h i (by omega))

theorem flag_after {dr : Nat} (vm : VM) (v : Nat) (h : dr ≤ 7) :
    ((vm.setReg dr v).update_flags dr).registers (Register.toIndex .Cond) =
      flagOf (((vm.setReg dr v).update_flags dr).registers dr) := by
  have hne : dr ≠ Register.toIndex .Cond := by simp [Register.toIndex]; omega
  rw [VM.update_flags_cond, VM.update_flags_reg_ne _ _ hne]

theorem VM.mem_read_registers {vm vm1 : VM} {a v : Nat}
    (h : vm.mem_read a = some (v, vm1)) : vm1.registers = vm.registers := by
  unfold VM.mem_read at h
  split at h
  · split at h
    · cases h
    · split at h <;> (cases h; rfl)
  · cases h
    rfl

theorem condValid_add {vm vm' : VM} {instr : Nat} (h : vm.add instr = some vm') :
    condValid vm' := by
  simp only [VM.add, sign_extend_five] at h
  split at h <;> (cases h; exact condValid_update_flags _ _)

theorem condValid_and {vm vm' : VM} {instr : Nat} (h : vm.and instr = some vm')
    (hv : condValid vm) : condValid vm' := by
  have hdr : (instr >>> 9) &&& 0x7 ≤ 7 := Nat.and_le_right
  simp only [VM.and, sign_extend_five] at h
  split at h <;>
    (cases h; exact condValid_setReg _ _ (by simp [Register.toIndex]; omega) hv)

theorem condValid_not {vm vm' : VM} {instr : Nat} (h : vm.not instr = some vm') :
    condValid vm' := by
  simp only [VM.not] at h
  cases h
  exact condValid_update_flags _ _

theorem condValid_br {vm vm' : VM} {instr : Nat} (h : vm.br instr = some vm')
    (hv : condValid vm) : condValid vm' := by
  simp only [VM.br, sign_extend_nine] at h
  split at h
  · cases h
    exact condValid_setReg _ _ (by decide) hv
  · cases h
    exact hv

theorem condValid_jmp {vm vm' : VM} {instr : Nat} (h : vm.jmp instr = some vm')
    (hv : condValid vm) : condValid vm' := by
  simp only [VM.jmp] at h
  cases h
  exact condValid_setReg _ _ (by decide) hv

theorem condValid_jsr {vm vm' : VM} {instr : Nat} (h : vm.jsr instr = some vm')
    (hv : condValid vm) : condValid vm' := by
  simp only [VM.jsr, sign_extend_eleven] at h
  split at h <;>
    (cases h;
      exact condValid_setReg _ _ (by decide) (condValid_setReg _ _ (by decide) hv))

theorem condValid_ld {vm vm' : VM} {instr : Nat} (h : vm.ld instr = some vm') :
    condValid vm' := by
  simp only [VM.ld, sign_extend_nine] at h
  cases h
  exact condValid_update_flags _ _

theorem condValid_ldr {vm vm' : VM} {instr : Nat} (h : vm.ldr instr = some vm') :
    condValid vm' := by
  simp only [VM.ldr, sign_extend_six] at h
  cases h
  exact condValid_update_flags _ _

theorem condValid_lea {vm vm' : VM} {instr : Nat} (h : vm.lea instr = some vm') :
    condValid vm' := by
  simp only [VM.lea, sign_extend_nine] at h
  cases h
  exact condValid_update_flags _ _

theorem condValid_ldi {vm vm' : VM} {instr : Nat} (h : vm.ldi instr = some vm') :
    condValid vm' := by
  simp only [VM.ldi, sign_extend_nine] at h
  split at h
  · cases h
  · split at h
    · cases h
    · cases h
      exact condValid_update_flags _ _

theorem condValid_st {vm vm' : VM} {instr : Nat} (h : vm.st instr = some vm')
    (hv : condValid vm) : condValid vm' := by
  simp only [VM.st, sign_extend_nine] at h
  cases h
  exact hv

theorem condValid_sti {vm vm' : VM} {instr : Nat} (h : vm.sti instr = some vm')
    (hv : condValid vm) : condValid vm' := by
  simp only [VM.sti, sign_extend_nine] at h
  cases h
  exact hv

theorem condValid_str {vm vm' : VM} {instr : Nat} (h : vm.str instr = some vm')
    (hv : condValid vm) : condValid vm' := by
  simp only [VM.str, sign_extend_six] at h
  cases h
  exact hv

theorem condValid_trap {vm vm' : VM} {instr : Nat} (h : vm.trap instr = some vm')
    (hv : condValid vm) : condValid vm' := by
  unfold VM.trap at h
  dsimp only at h
  split at h
  · cases h
  · cases h
    unfold VM.trap_getc
    exact condValid_update_flags _ _
  · cases h
    exact hv
  · unfold VM.trap_puts at h
    obtain ⟨out, _, hf⟩ := Option.map_eq_some'.mp h
    subst hf
    exact hv
  · cases h
    unfold VM.trap_in
    exact condValid_update_flags _ _
  · unfold VM.trap_puts_p at h
    obtain ⟨out, _, hf⟩ := Option.map_eq_some'.mp h
    subst hf
    exact hv
  · cases h
    exact hv

theorem condValid_execute {vm vm' : VM} {op : OpCode} {instr : Nat}
    (h : vm.execute op instr = some vm') (hv : condValid vm) : condValid vm' := by
  cases op
  case Add => exact condValid_add h
  case And => exact condValid_and h hv
  case Not => exact condValid_not h
  case Br => exact condValid_br h hv
  case Jmp => exact condValid_jmp h hv
  case Jsr => exact condValid_jsr h hv
  case Ld => exact condValid_ld h
  case Ldi => exact condValid_ldi h
  case Ldr => exact condValid_ldr h
  case Lea => exact condValid_lea h
  case St => exact condValid_st h hv
  case Sti => exact condValid_sti h hv
  case Str => exact condValid_str h hv
  case Trap => exact condValid_trap h hv
  case Rti => cases h; exact hv
  case Res => cases h; exact hv

theorem condValid_step {vm vm' : VM} (h : vm.step = some vm') (hv : condValid vm) :
    condValid vm' := by
  unfold VM.step at h
  split at h
  · split at h
    · cases h
    · rename_i instr vm1 heq
      unfold VM.fetch at heq
      have hreg : vm1.registers = vm.registers := VM.mem_read_registers heq
      have hv1 : condValid vm1 := by
        unfold condValid at hv ⊢
        rw [hreg]
        exact hv
      split at h
      · cases h
      · dsimp only at h
        split at h
        · cases h
        · exact condValid_execute h (condValid_setReg _ _ (by decide) hv1)
  · cases h

/-! Claim C2: size of the register file. -/

/-- Claim C2, counterexample: the register array has 10 slots, not 11, and
indexing it at the index of `Register::Count` (10) is out of bounds. -/
theorem register_file_count_out_of_bounds :
    REGISTER_COUNT ≠ 11 ∧ Register.toIndex Register.Count = 10 ∧
      ¬ Register.toIndex Register.Count < REGISTER_COUNT := by
  decide

/-- Claim C2, amended: the register file is a fixed-size array of 10
sixteen-bit words; every member of the register enumeration except
`Count` indexes it within bounds, while `Count` maps exactly to the array
length 10 and is out of bounds. -/
theorem register_file_bounds :
    REGISTER_COUNT = 10 ∧
      (∀ r : Register, r ≠ Register.Count → Register.toIndex r < REGISTER_COUNT) ∧
      Register.toIndex Register.Count = REGISTER_COUNT := by
  refine ⟨rfl, ?_, rfl⟩
  intro r h
  cases r
  all_goals first
  | exact absurd rfl h
  | decide

/-- Claim C2, witness: `R0` indexes the register array within bounds. -/
theorem register_file_bounds_witness :
    Register.R0 ≠ Register.Count ∧ Register.toIndex Register.R0 < REGISTER_COUNT :=
  ⟨by decide, register_file_bounds.2.1 Register.R0 (by decide)⟩

/-! Claim C4: sign extension. -/

/-- Claim C4, counterexample: `sign_extend(0x8000, 16)` is not the
identity; the shift `0xFFFF << 16` overflows and the call panics. -/
theorem sign_extend_sixteen_not_identity :
    sign_extend 0x8000 16 = none ∧ sign_extend 0x8000 16 ≠ some 0x8000 := by
  decide

/-- Claim C4, amended: for every 16-bit `x` and `1 ≤ k ≤ 15`,
`sign_extend(·, k)` is total and idempotent; for `k = 16` the function
returns `x` unchanged when bit 15 of `x` is clear, and panics on the
shift `0xFFFF << 16` when bit 15 is set, so it is not the identity. -/
theorem sign_extend_idempotent :
    (∀ x k, 1 ≤ k → k ≤ 15 →
      (sign_extend x k).bind (fun y => sign_extend y k) = sign_extend x k) ∧
      (∀ x, x < 32768 → sign_extend x 16 = some x) ∧
      (∀ x, x < 65536 → 32768 ≤ x → sign_extend x 16 = none) := by
  refine ⟨?_, ?_, ?_⟩
  · intro x k h1 h2
    rw [sign_extend_eq_sext x k h1 h2]
    simp only [Option.some_bind]
    rw [sign_extend_eq_sext _ k h1 h2, sext_idem]
  · intro x hx
    have h15 : x >>> 15 = 0 := by
      rw [Nat.shiftRight_eq_div_pow]
      exact Nat.div_eq_of_lt (by norm_num; omega)
    simp [sign_extend, h15]
  · intro x hx1 hx2
    have h15 : x >>> 15 = 1 := by
      rw [Nat.shiftRight_eq_div_pow]
      norm_num
      omega
    simp [sign_extend, h15]

/-- Claim C4, witness: idempotence at `x = 0x1F, k = 5` and identity at
`x = 3, k = 16`. -/
theorem sign_extend_idempotent_witness :
    ((1 ≤ 5 ∧ 5 ≤ 15) ∧
        (sign_extend 0x1F 5).bind (fun y => sign_extend y 5) = sign_extend 0x1F 5) ∧
      (3 < 32768 ∧ sign_extend 3 16 = some 3) :=
  ⟨⟨⟨by decide, by decide⟩, sign_extend_idempotent.1 0x1F 5 (by decide) (by decide)⟩,
    ⟨by decide, sign_extend_idempotent.2.1 3 (by decide)⟩⟩

/-! Claim C6: AND writes the destination register and nothing else. -/

/-- Claim C6: for every state and AND instruction, the handler writes
`SR1 & operand2` to the destination register and leaves the condition
flags, every other register, the memory, the running flag and the I/O
streams unchanged. -/
theorem and_writes_dr_only :
    ∀ (vm : VM) (instr : Nat),
      ∃ vm', VM.and vm instr = some vm' ∧
        vm'.registers ((instr >>> 9) &&& 0x7) =
          (vm.registers ((instr >>> 6) &&& 0x7) &&&
            (if (instr >>> 5) &&& 0x1 ≠ 0 then sext (instr &&& 0x1F) 5
              else vm.registers (instr &&& 0x7))) ∧
        vm'.registers (Register.toIndex .Cond) =
          vm.registers (Register.toIndex .Cond) ∧
        (∀ i, i ≠ (instr >>> 9) &&& 0x7 → vm'.registers i = vm.registers i) ∧
        vm'.memory = vm.memory ∧ vm'.running = vm.running ∧
        vm'.input = vm.input ∧ vm'.output = vm.output := by
  intro vm instr
  have hdr : (instr >>> 9) &&& 0x7 ≤ 7 := Nat.and_le_right
  unfold VM.and
  by_cases h : (instr >>> 5) &&& 0x1 ≠ 0
  · rw [if_pos h, sign_extend_five]
    refine ⟨_, rfl, ?_, ?_, ?_, rfl, rfl, rfl, rfl⟩
    · rw [if_pos h, VM.setReg_reg_self]
    · exact vm.setReg_reg_ne _ (by simp [Register.toIndex]; omega)
    · intro i hi
      exact vm.setReg_reg_ne _ hi
  · rw [if_neg h]
    refine ⟨_, rfl, ?_, ?_, ?_, rfl, rfl, rfl, rfl⟩
    · rw [if_neg h, VM.setReg_reg_self]
    · exact vm.setReg_reg_ne _ (by simp [Register.toIndex]; omega)
    · intro i hi
      exact vm.setReg_reg_ne _ hi

/-- Claim C6, witness: AND in register mode at `DR=R0, SR1=R1, SR2=R2`. -/
theorem and_writes_dr_only_witness :
    ∃ vm', VM.and (VM.new []) 0x5042 = some vm' ∧
      vm'.registers ((0x5042 >>> 9) &&& 0x7) =
        ((VM.new []).registers ((0x5042 >>> 6) &&& 0x7) &&&
          (if (0x5042 >>> 5) &&& 0x1 ≠ 0 then sext (0x5042 &&& 0x1F) 5
            else (VM.new []).registers (0x5042 &&& 0x7))) ∧
      vm'.registers (Register.toIndex .Cond) =
        (VM.new []).registers (Register.toIndex .Cond) ∧
      (∀ i, i ≠ (0x5042 >>> 9) &&& 0x7 → vm'.registers i = (VM.new []).registers i) ∧
      vm'.memory = (VM.new []).memory ∧ vm'.running = (VM.new []).running ∧
      vm'.input = (VM.new []).input ∧ vm'.output = (VM.new []).output :=
  and_writes_dr_only (VM.new []) 0x5042

/-! Claim C7: RTI and the reserved opcode abort without mutation. -/

/-- Claim C7: an instruction whose opcode field is 8 (RTI) or 13
(reserved) decodes successfully, and executing it prints a diagnostic and
clears the running flag while leaving every register and every memory
word unchanged. -/
theorem rti_res_abort :
    ∀ (vm : VM) (instr : Nat), instr >>> 12 = 8 ∨ instr >>> 12 = 13 →
      ∃ op vm', OpCode.from_u16 (instr >>> 12) = some op ∧
        VM.execute vm op instr = some vm' ∧
        vm'.running = false ∧ vm'.registers = vm.registers ∧
        vm'.memory = vm.memory ∧ vm'.input = vm.input ∧
        vm'.output = vm.output ++ abortMessage ∧ abortMessage ≠ [] := by
  intro vm instr h
  rcases h with h | h
  · rw [h]
    exact ⟨.Rti, vm.abort, rfl, rfl, rfl, rfl, rfl, rfl, rfl, by decide⟩
  · rw [h]
    exact ⟨.Res, vm.abort, rfl, rfl, rfl, rfl, rfl, rfl, rfl, by decide⟩

/-- Claim C7, witness: the instruction `0x8000` (opcode 8). -/
theorem rti_res_abort_witness :
    (0x8000 >>> 12 = 8 ∨ 0x8000 >>> 12 = 13) ∧
      ∃ op vm', OpCode.from_u16 (0x8000 >>> 12) = some op ∧
        VM.execute (VM.new []) op 0x8000 = some vm' ∧
        vm'.running = false ∧ vm'.registers = (VM.new []).registers ∧
        vm'.memory = (VM.new []).memory ∧ vm'.input = (VM.new []).input ∧
        vm'.output = (VM.new []).output ++ abortMessage ∧ abortMessage ≠ [] :=
  ⟨Or.inl (by decide), rti_res_abort (VM.new []) 0x8000 (Or.inl (by decide))⟩

/-! Claim C10: the trap dispatcher panics on unknown vectors. -/

/-- Claim C10: a TRAP instruction whose low byte is not one of the six
trap vectors 0x20..0x25 makes the vector conversion fail, and the
dispatcher panics on the `unwrap` (modelled `none`); the panic unwinds
before `restore_terminal_settings` and before anything sets `running`
to false. -/
theorem trap_bad_vector_panics :
    ∀ (vm : VM) (instr : Nat),
      instr &&& 0xFF < 0x20 ∨ 0x25 < instr &&& 0xFF →
      TrapCode.tryFrom (instr &&& 0xFF) = none ∧ VM.trap vm instr = none := by
  intro vm instr h
  have ht : TrapCode.tryFrom (instr &&& 0xFF) = none := by
    unfold TrapCode.tryFrom
    split
    all_goals first
    | rfl
    | omega
  exact ⟨ht, by simp [VM.trap, ht]⟩

/-- Claim C10, witness: `TRAP x00` (instruction `0xF000`) panics. -/
theorem trap_bad_vector_panics_witness :
    (0xF000 &&& 0xFF < 0x20 ∨ 0x25 < 0xF000 &&& 0xFF) ∧
      TrapCode.tryFrom (0xF000 &&& 0xFF) = none ∧ VM.trap (VM.new []) 0xF000 = none :=
  ⟨Or.inl (by decide), trap_bad_vector_panics (VM.new []) 0xF000 (Or.inl (by decide))⟩

/-! Claim C1: memory-mapped keyboard polling. -/

/-- Claim C1, counterexample: executing `LD R0, #0` at `PC = 0xFE00` loads
from the keyboard status address but performs no poll: with an input byte
pending, the status word stays 0 instead of being refreshed to `0x8000`,
and the input stream is not consumed. -/
theorem ld_does_not_poll_counterexample :
    (VM.ld vmLdAtKbsr 0x2000).map (fun v => v.memory KBSR) = some 0 ∧
      (VM.ld vmLdAtKbsr 0x2000).map (fun v => v.memory KBSR) ≠ some 32768 ∧
      (VM.ld vmLdAtKbsr 0x2000).map (fun v => v.input) = some [1, 65] := by
  decide

/-- Claim C1, amended: a load from the status address through `mem_read`
(the primitive used by instruction fetch and by both loads of LDI) polls
the input source, refreshes the status word (and on a nonzero byte also
the data word) and returns the refreshed status; `mem_read` on any other
address returns the stored word with no side effect; but the LD and LDR
handlers index memory directly and never poll or touch memory, even when
their effective address is the status address. -/
theorem mem_read_mmio_semantics :
    (∀ (vm : VM) (b : Nat) (rest : List Nat), vm.input = b :: rest → b ≠ 0 →
        ∃ vm', VM.mem_read vm KBSR = some (32768, vm') ∧
          vm'.memory KBSR = 32768 ∧
          vm'.memory KBDDR = (getCharU16 rest).1 ∧
          (∀ a, a ≠ KBSR → a ≠ KBDDR → vm'.memory a = vm.memory a) ∧
          vm'.input = (getCharU16 rest).2 ∧
          vm'.registers = vm.registers) ∧
      (∀ (vm : VM) (rest : List Nat), vm.input = 0 :: rest →
        ∃ vm', VM.mem_read vm KBSR = some (0, vm') ∧
          vm'.memory KBSR = 0 ∧
          (∀ a, a ≠ KBSR → vm'.memory a = vm.memory a) ∧
          vm'.input = rest ∧
          vm'.registers = vm.registers) ∧
      (∀ (vm : VM) (address : Nat), address ≠ KBSR →
        VM.mem_read vm address = some (vm.memory address, vm)) ∧
      (∀ (vm : VM) (instr : Nat),
        ∃ vm', VM.ld vm instr = some vm' ∧
          vm'.memory = vm.memory ∧ vm'.input = vm.input) ∧
      (∀ (vm : VM) (instr : Nat),
        ∃ vm', VM.ldr vm instr = some vm' ∧
          vm'.memory = vm.memory ∧ vm'.input = vm.input) := by
  refine ⟨?_, ?_, ?_, ?_, ?_⟩
  · intro vm b rest hin hb
    have hm : VM.mem_read vm KBSR =
        some (32768,
          { vm with
              memory := updFn (updFn vm.memory KBSR 32768) KBDDR (getCharU16 rest).1
              input := (getCharU16 rest).2 }) := by
      unfold VM.mem_read
      rw [if_pos rfl, hin]
      dsimp only
      rw [if_pos hb]
      rw [updFn_ne _ _ (by decide), updFn_self]
    refine ⟨_, hm, ?_, ?_, ?_, rfl, rfl⟩
    · show updFn (updFn vm.memory KBSR 32768) KBDDR (getCharU16 rest).1 KBSR = 32768
      rw [updFn_ne _ _ (by decide), updFn_self]
    · show updFn (updFn vm.memory KBSR 32768) KBDDR (getCharU16 rest).1 KBDDR =
        (getCharU16 rest).1
      exact updFn_self _ _ _
    · intro a h1 h2
      show updFn (updFn vm.memory KBSR 32768) KBDDR (getCharU16 rest).1 a = vm.memory a
      rw [updFn_ne _ _ h2, updFn_ne _ _ h1]
  · intro vm rest hin
    have hm : VM.mem_read vm KBSR =
        some (0, { vm with memory := updFn vm.memory KBSR 0, input := rest }) := by
      unfold VM.mem_read
      rw [if_pos rfl, hin]
      dsimp only
      rw [if_neg (by simp), updFn_self]
    refine ⟨_, hm, ?_, ?_, rfl, rfl⟩
    · show updFn vm.memory KBSR 0 KBSR = 0
      exact updFn_self _ _ _
    · intro a h1
      show updFn vm.memory KBSR 0 a = vm.memory a
      exact updFn_ne _ _ h1
  · intro vm address h
    unfold VM.mem_read
    rw [if_neg h]
  · intro vm instr
    unfold VM.ld
    rw [sign_extend_nine]
    dsimp only
    exact ⟨_, rfl, by rw [VM.update_flags_memory, VM.setReg_memory],
      by rw [VM.update_flags_input, VM.setReg_input]⟩
  · intro vm instr
    unfold VM.ldr
    rw [sign_extend_six]
    dsimp only
    exact ⟨_, rfl, by rw [VM.update_flags_memory, VM.setReg_memory],
      by rw [VM.update_flags_input, VM.setReg_input]⟩

/-- Claim C1, witness: a `mem_read` from an ordinary address (0x3000) is a
pure load. -/
theorem mem_read_mmio_semantics_witness :
    (0x3000 ≠ KBSR) ∧
      VM.mem_read (VM.new []) 0x3000 = some ((VM.new []).memory 0x3000, VM.new []) :=
  ⟨by decide, mem_read_mmio_semantics.2.2.1 (VM.new []) 0x3000 (by decide)⟩

/-! Claim C8: the PUTSP packed-string walk. -/

/-- Claim C8, counterexample: at `R0 = 0x3000` with `Memory[0x3000] =
0x4100` (low byte zero, high byte nonzero) the walk does not stop: it
prints the zero low byte and then the nonzero high byte, instead of
terminating without printing either byte of that word. -/
theorem putsp_zero_low_byte_counterexample :
    memPacked 0x3000 % 256 = 0 ∧ (memPacked 0x3000 >>> 8) % 256 ≠ 0 ∧
      putspFrom memPacked 0x3000 = some [0, 0x41] ∧
      putspFrom memPacked 0x3000 ≠ some [] := by
  decide

theorem putspGo_spec (n : Nat) : ∀ (mem : Nat → Nat) (a fuel : Nat),
    (∀ i, i < n → mem (a + i) ≠ 0) → a + n < 65536 → mem (a + n) = 0 →
    65536 - a ≤ fuel →
    putspGo mem fuel a = some (putspExpected mem a n) := by
  induction n with
  | zero =>
    intro mem a fuel _ hlt hz hfuel
    obtain ⟨f, rfl⟩ : ∃ f, fuel = f + 1 := ⟨fuel - 1, by omega⟩
    rw [Nat.add_zero] at hz
    simp [putspGo, hz, putspExpected]
  | succ m ih =>
    intro mem a fuel h hlt hz hfuel
    have h0 : mem a ≠ 0 := by
      have := h 0 (by omega)
      rwa [Nat.add_zero] at this
    obtain ⟨f, rfl⟩ : ∃ f, fuel = f + 1 := ⟨fuel - 1, by omega⟩
    have ha1 : a + 1 < 65536 := by omega
    rw [putspGo, if_neg h0, if_pos ha1]
    rw [ih mem (a + 1) f ?h1 ?h2 ?h3 ?h4]
    case h1 =>
      intro i hi
      have := h (i + 1) (by omega)
      rwa [show a + (i + 1) = a + 1 + i by omega] at this
    case h2 => omega
    case h3 => rwa [show a + (m + 1) = a + 1 + m by omega] at hz
    case h4 => omega
    show some _ = some (putspExpected mem a (m + 1))
    by_cases hc : (mem a >>> 8) % 256 ≠ 0 <;>
      simp [putspExpected, renderWord, hc]

/-- Claim C8, amended: the PUTSP routine walks the words from `R0`,
stopping at the first zero word (not the first zero byte: a word with a
zero low byte and nonzero high byte is printed, both bytes, and the walk
continues); each nonzero word contributes its low byte and then its high
byte when that is nonzero; `R0`, every register and all memory are
unchanged. -/
theorem putsp_semantics :
    ∀ (vm : VM) (n : Nat),
      (∀ i, i < n → vm.memory (vm.registers (Register.toIndex .R0) + i) ≠ 0) →
      vm.registers (Register.toIndex .R0) + n < 65536 →
      vm.memory (vm.registers (Register.toIndex .R0) + n) = 0 →
      ∃ vm', VM.trap_puts_p vm = some vm' ∧
        vm'.output = vm.output ++
          putspExpected vm.memory (vm.registers (Register.toIndex .R0)) n ∧
        vm'.memory = vm.memory ∧ vm'.registers = vm.registers ∧
        vm'.running = vm.running ∧ vm'.input = vm.input := by
  intro vm n h1 h2 h3
  unfold VM.trap_puts_p putspFrom
  rw [putspGo_spec n vm.memory (vm.registers (Register.toIndex .R0)) _ h1 h2 h3
    (Nat.le_refl _)]
  exact ⟨_, rfl, rfl, rfl, rfl, rfl, rfl⟩

/-- Claim C8, witness: the empty string (a zero word at `R0`). -/
theorem putsp_semantics_witness :
    ∃ vm', VM.trap_puts_p (VM.new []) = some vm' ∧
      vm'.output = (VM.new []).output ++
        putspExpected (VM.new []).memory ((VM.new []).registers (Register.toIndex .R0)) 0 ∧
      vm'.memory = (VM.new []).memory ∧ vm'.registers = (VM.new []).registers ∧
      vm'.running = (VM.new []).running ∧ vm'.input = (VM.new []).input :=
  putsp_semantics (VM.new []) 0 (fun i hi => absurd hi (Nat.not_lt_zero i))
    (by decide) rfl

/-! Claim C9: image-loader round trip. -/

/-- Claim C9: loading a byte stream made of a big-endian origin and
big-endian payload words that fit the address space writes exactly those
words contiguously from the origin and changes nothing else. -/
theorem read_image_round_trip :
    ∀ (vm : VM) (b0 b1 : Nat) (ws : List Nat),
      (∀ w ∈ ws, w < 65536) →
      b0 * 256 + b1 + ws.length ≤ 65536 →
      ∃ vm', VM.read_image_file vm (b0 :: b1 :: wordsToBytes ws) = some vm' ∧
        (∀ i, i < ws.length → vm'.memory (b0 * 256 + b1 + i) = ws.getD i 0) ∧
        (∀ a, a < b0 * 256 + b1 ∨ b0 * 256 + b1 + ws.length ≤ a →
          vm'.memory a = vm.memory a) ∧
        vm'.registers = vm.registers ∧ vm'.running = vm.running ∧
        vm'.input = vm.input ∧ vm'.output = vm.output := by
  intro vm b0 b1 ws hw hfit
  have hlen : (wordsToBytes ws).length = 2 * ws.length := wordsToBytes_length ws
  have hn : min (wordsToBytes ws).length ((MEMORY_SIZE - (b0 * 256 + b1)) * 2) / 2 =
      ws.length := by
    rw [hlen]
    unfold MEMORY_SIZE
    omega
  unfold VM.read_image_file
  dsimp only
  rw [hn]
  refine ⟨_, rfl, ?_, ?_, rfl, rfl, rfl, rfl⟩
  · intro i hi
    show loadLoop vm.memory (b0 * 256 + b1) (wordsToBytes ws) ws.length (b0 * 256 + b1 + i) =
      ws.getD i 0
    rw [loadLoop_at _ _ _ _ i hi]
    obtain ⟨h1, h2⟩ := wordsToBytes_getD ws i hi
    rw [h1, h2]
    have hwi : ws.getD i 0 < 65536 := by
      have hmem : ws.getD i 0 ∈ ws := by
        rw [List.getD_eq_getElem ws 0 hi]
        exact List.getElem_mem hi
      exact hw _ hmem
    omega
  · intro a ha
    show loadLoop vm.memory (b0 * 256 + b1) (wordsToBytes ws) ws.length a = vm.memory a
    exact loadLoop_out _ _ _ _ a (fun i hi => by omega)

/-- Claim C9, witness: origin 0x3000 with payload words 0x1234 and 0x5678. -/
theorem read_image_round_trip_witness :
    ((∀ w ∈ [0x1234, 0x5678], w < 65536) ∧
        0x30 * 256 + 0x00 + ([0x1234, 0x5678] : List Nat).length ≤ 65536) ∧
      ∃ vm', VM.read_image_file (VM.new []) (0x30 :: 0x00 :: wordsToBytes [0x1234, 0x5678]) =
          some vm' ∧
        (∀ i, i < ([0x1234, 0x5678] : List Nat).length →
          vm'.memory (0x30 * 256 + 0x00 + i) = ([0x1234, 0x5678] : List Nat).getD i 0) ∧
        (∀ a, a < 0x30 * 256 + 0x00 ∨
            0x30 * 256 + 0x00 + ([0x1234, 0x5678] : List Nat).length ≤ a →
          vm'.memory a = (VM.new []).memory a) ∧
        vm'.registers = (VM.new []).registers ∧ vm'.running = (VM.new []).running ∧
        vm'.input = (VM.new []).input ∧ vm'.output = (VM.new []).output :=
  ⟨⟨by decide, by decide⟩,
    read_image_round_trip (VM.new []) 0x30 0x00 [0x1234, 0x5678] (by decide) (by decide)⟩

/-! Claim C3: wrapping of address computations. -/

/-- Claim C3, counterexample: with the PC at 0xFFFF, the `+= 1` after
fetch overflows and panics under checked arithmetic instead of wrapping
the PC to 0x0000; likewise the PUTS string walk panics at `address =
0xFFFF` instead of continuing at 0x0000. -/
theorem pc_increment_overflow_counterexample :
    vmPCMax.running = true ∧
      vmPCMax.registers (Register.toIndex .PC) = 0xFFFF ∧
      VM.step vmPCMax = none ∧
      putsFrom (fun _ => 65) 0xFFFF = none :=
  ⟨rfl, rfl, rfl, rfl⟩

/-- Claim C3, amended: the effective-address additions in the load/store
handlers use `wrapping_add` and are reduced modulo 65536, but the PC
increment in the execution loop and the address advance in the PUTS /
PUTSP string walks use plain `u16` addition, which panics on overflow
under checked arithmetic (the dev profile): a fetch at PC = 0xFFFF is
followed by a panic, not by PC = 0x0000, and a string walk reaching
0xFFFF with a nonzero word panics rather than continuing at 0x0000.
(Under the release profile these additions would wrap instead.) -/
theorem address_wrapping_semantics :
    (∀ (vm : VM) (instr : Nat),
      ∃ vm', VM.ld vm instr = some vm' ∧
        vm'.registers ((instr >>> 9) &&& 0x7) =
          vm.memory ((vm.registers (Register.toIndex .PC) + sext (instr &&& 0x1FF) 9) %
            65536)) ∧
      (∀ (vm : VM) (instr : Nat),
        ∃ vm', VM.ldr vm instr = some vm' ∧
          vm'.registers ((instr >>> 9) &&& 0x7) =
            vm.memory ((vm.registers ((instr >>> 6) &&& 0x7) + sext (instr &&& 0x3F) 6) %
              65536)) ∧
      (∀ (vm : VM) (instr : Nat),
        VM.st vm instr = some { vm with
          memory := updFn vm.memory
            ((vm.registers (Register.toIndex .PC) + sext (instr &&& 0x1FF) 9) % 65536)
            (vm.registers ((instr >>> 9) &&& 0x7)) }) ∧
      (∀ (vm : VM) (instr : Nat),
        VM.str vm instr = some { vm with
          memory := updFn vm.memory
            ((vm.registers ((instr >>> 6) &&& 0x7) + sext (instr &&& 0x3F) 6) % 65536)
            (vm.registers ((instr >>> 9) &&& 0x7)) }) ∧
      (∀ vm : VM, vm.running = true → vm.registers (Register.toIndex .PC) = 65535 →
        VM.step vm = none) ∧
      (∀ mem : Nat → Nat, mem 65535 ≠ 0 → putsFrom mem 65535 = none) := by
  refine ⟨?_, ?_, ?_, ?_, ?_, ?_⟩
  · intro vm instr
    have hdr : (instr >>> 9) &&& 0x7 ≤ 7 := Nat.and_le_right
    unfold VM.ld
    rw [sign_extend_nine]
    dsimp only
    refine ⟨_, rfl, ?_⟩
    rw [VM.update_flags_reg_ne _ _ (by simp [Register.toIndex]; omega),
      VM.setReg_reg_self]
  · intro vm instr
    have hdr : (instr >>> 9) &&& 0x7 ≤ 7 := Nat.and_le_right
    unfold VM.ldr
    rw [sign_extend_six]
    dsimp only
    refine ⟨_, rfl, ?_⟩
    rw [VM.update_flags_reg_ne _ _ (by simp [Register.toIndex]; omega),
      VM.setReg_reg_self]
  · intro vm instr
    unfold VM.st
    rw [sign_extend_nine]
  · intro vm instr
    unfold VM.str
    rw [sign_extend_six]
  · intro vm hr hpc
    unfold VM.step VM.fetch
    rw [hr, hpc, VM.mem_read_other vm (show (65535 : Nat) ≠ KBSR by decide)]
    dsimp only
    rw [hpc]
    rfl
  · intro mem h
    unfold putsFrom
    show putsGo mem 1 65535 = none
    simp [putsGo, h]

/-- Claim C3, witness: the LD effective address wraps, and the PC
increment at 0xFFFF panics. -/
theorem address_wrapping_semantics_witness :
    (∃ vm', VM.ld (VM.new []) 0x2000 = some vm' ∧
        vm'.registers ((0x2000 >>> 9) &&& 0x7) =
          (VM.new []).memory
            (((VM.new []).registers (Register.toIndex .PC) + sext (0x2000 &&& 0x1FF) 9) %
              65536)) ∧
      (vmPCMax.running = true ∧ vmPCMax.registers (Register.toIndex .PC) = 65535 ∧
        VM.step vmPCMax = none) :=
  ⟨address_wrapping_semantics.1 (VM.new []) 0x2000,
    ⟨rfl, rfl, address_wrapping_semantics.2.2.2.2.1 vmPCMax rfl rfl⟩⟩

/-! Claim C5: the condition-flag invariant. -/

/-- Claim C5: in every machine state reachable from the initial state
(COND = Zro, PC = 0x3000) by executing instructions, COND holds exactly
one of the three patterns 1 (Positive), 2 (Zero), 4 (Negative); and after
each flag-setting handler (ADD, NOT, LD, LDI, LDR, LEA, GETC, IN) the
COND slot equals the flag derived solely from the destination register's
final value (0 gives Zero, bit 15 set gives Negative, else Positive — the
`flagOf` function). -/
theorem cond_flag_invariant :
    (∀ vm : VM, Reachable vm → condValid vm) ∧
      (∀ (vm vm' : VM) (instr : Nat), VM.add vm instr = some vm' →
        vm'.registers (Register.toIndex .Cond) =
          flagOf (vm'.registers ((instr >>> 9) &&& 0x7))) ∧
      (∀ (vm vm' : VM) (instr : Nat), VM.not vm instr = some vm' →
        vm'.registers (Register.toIndex .Cond) =
          flagOf (vm'.registers ((instr >>> 9) &&& 0x7))) ∧
      (∀ (vm vm' : VM) (instr : Nat), VM.ld vm instr = some vm' →
        vm'.registers (Register.toIndex .Cond) =
          flagOf (vm'.registers ((instr >>> 9) &&& 0x7))) ∧
      (∀ (vm vm' : VM) (instr : Nat), VM.ldi vm instr = some vm' →
        vm'.registers (Register.toIndex .Cond) =
          flagOf (vm'.registers ((instr >>> 9) &&& 0x7))) ∧
      (∀ (vm vm' : VM) (instr : Nat), VM.ldr vm instr = some vm' →
        vm'.registers (Register.toIndex .Cond) =
          flagOf (vm'.registers ((instr >>> 9) &&& 0x7))) ∧
      (∀ (vm vm' : VM) (instr : Nat), VM.lea vm instr = some vm' →
        vm'.registers (Register.toIndex .Cond) =
          flagOf (vm'.registers ((instr >>> 9) &&& 0x7))) ∧
      (∀ vm : VM, (VM.trap_getc vm).registers (Register.toIndex .Cond) =
        flagOf ((VM.trap_getc vm).registers (Register.toIndex .R0))) ∧
      (∀ vm : VM, (VM.trap_in vm).registers (Register.toIndex .Cond) =
        flagOf ((VM.trap_in vm).registers (Register.toIndex .R0))) := by
  refine ⟨?_, ?_, ?_, ?_, ?_, ?_, ?_, ?_, ?_⟩
  · intro vm hr
    induction hr with
    | init stdin => exact Or.inr (Or.inl rfl)
    | step _ hs ih => exact condValid_step hs ih
  · intro vm vm' instr h
    simp only [VM.add, sign_extend_five] at h
    split at h <;> (cases h; exact flag_after _ _ Nat.and_le_right)
  · intro vm vm' instr h
    simp only [VM.not] at h
    cases h
    exact flag_after _ _ Nat.and_le_right
  · intro vm vm' instr h
    simp only [VM.ld, sign_extend_nine] at h
    cases h
    exact flag_after _ _ Nat.and_le_right
  · intro vm vm' instr h
    simp only [VM.ldi, sign_extend_nine] at h
    split at h
    · cases h
    · split at h
      · cases h
      · cases h
        exact flag_after _ _ Nat.and_le_right
  · intro vm vm' instr h
    simp only [VM.ldr, sign_extend_six] at h
    cases h
    exact flag_after _ _ Nat.and_le_right
  · intro vm vm' instr h
    simp only [VM.lea, sign_extend_nine] at h
    cases h
    exact flag_after _ _ Nat.and_le_right
  · intro vm
    unfold VM.trap_getc
    exact flag_after _ _ (by decide)
  · intro vm
    unfold VM.trap_in
    exact flag_after _ _ (by decide)

/-- Claim C5, witness: the initial state satisfies the invariant, and GETC
on the initial state sets COND from the destination register. -/
theorem cond_flag_invariant_witness :
    condValid (VM.new []) ∧
      (VM.trap_getc (VM.new [])).registers (Register.toIndex .Cond) =
        flagOf ((VM.trap_getc (VM.new [])).registers (Register.toIndex .R0)) :=
  ⟨cond_flag_invariant.1 (VM.new []) (Reachable.init []),
    cond_flag_invariant.2.2.2.2.2.2.2.1 (VM.new [])⟩

end LC3
